import Mathlib

/-!
A shallow embedding of the kbizikav/gelato-test repository's core flow:
task-status polling, bounded retry, signature splitting, fee capping,
submit-form validation and EIP-2612 permit building, together with
theorems settling the specification's claims.

Modelling conventions: JS strings become `String` or `List Char`,
JS `bigint` becomes `Int` or `Nat` where the value is a count,
`undefined`/`null` become `Option.none`, and a thrown error becomes
`Except.error`.  The chain client, the wallet signer and the relay
service are external collaborators; their answers enter the model as
explicit oracle parameters (a list of fetch results for the pollers, a
result-per-attempt function for the retry wrapper, record-of-reads for
the token contract).
-/

/-- A relay task status as seen by the pollers.  Both fields may be
absent (`undefined` in the source responses). -/
structure TaskStatus where
  taskState : Option String
  transactionHash : Option String
deriving DecidableEq

/-- JS truthiness of an optional string field: `undefined` and the empty
string are falsy, every other string is truthy. -/
def strTruthy : Option String → Bool
  | none => false
  | some s => !s.data.isEmpty

/-- relayHelpers.ts lines 241-249: the fixed terminal vocabulary of the
CLI task poller. -/
def TERMINAL_STATES : List String :=
  ["ExecSuccess", "ExecReverted", "Cancelled", "Blacklisted", "NotFound",
   "Reverted", "CancelledByUser"]

/-- relayHelpers.ts line 266: the condition under which `waitForTaskFinal`
returns from inside its loop, applied to the freshly fetched (possibly
`undefined`) status: a truthy `transactionHash`, or a truthy `taskState`
contained in `TERMINAL_STATES`. -/
def isFinalStatus : Option TaskStatus → Bool
  | none => false
  | some s =>
      strTruthy s.transactionHash ||
        (strTruthy s.taskState && TERMINAL_STATES.contains (s.taskState.getD ""))

/-- Result of a poll run: `early st` models the `return lastStatus`
inside the loop (reached before the attempt budget is exhausted), while
`exhausted last` models falling off the loop and returning the
last-known status. -/
inductive PollOutcome where
  | early (st : Option TaskStatus)
  | exhausted (last : Option TaskStatus)
deriving DecidableEq

/-- relayHelpers.ts lines 260-273, the body of `waitForTaskFinal`.  The
relay's answers are supplied as a list of per-attempt oracle results
(`Except.error` = `getTaskStatus` threw, `Except.ok st` = it resolved to
`st`); the list length is the `maxAttempts` budget.  A failed fetch only
logs and continues; a successful fetch overwrites `lastStatus` and
returns it when `isFinalStatus` holds. -/
def waitForTaskFinalLoop (lastStatus : Option TaskStatus) :
    List (Except Unit (Option TaskStatus)) → PollOutcome
  | [] => .exhausted lastStatus
  | .error _ :: rest => waitForTaskFinalLoop lastStatus rest
  | .ok st :: rest =>
      if isFinalStatus st then .early st else waitForTaskFinalLoop st rest

/-- relayHelpers.ts lines 253-275: `waitForTaskFinal`, starting with no
last-known status. -/
def waitForTaskFinal (fetches : List (Except Unit (Option TaskStatus))) : PollOutcome :=
  waitForTaskFinalLoop none fetches

/-- The value held by the `lastStatus` variable after a run over the
given fetch results: the value of the last successful fetch (which may
itself be `none`, i.e. `undefined`), or the accumulator if none
succeeded. -/
def lastFetchedStatus (acc : Option TaskStatus) :
    List (Except Unit (Option TaskStatus)) → Option TaskStatus
  | [] => acc
  | .error _ :: rest => lastFetchedStatus acc rest
  | .ok st :: rest => lastFetchedStatus st rest

/-- ASCII lowering of a string's characters, modelling
`String.prototype.toLowerCase` on the ASCII task-state names. -/
def jsToLower (s : String) : List Char :=
  s.data.map Char.toLower

/-- JS `String.prototype.includes` on character lists (for a non-empty
needle): some contiguous occurrence of `needle` exists. -/
def hasSubstr (needle : List Char) : List Char → Bool
  | [] => needle.isEmpty
  | c :: rest => needle.isPrefixOf (c :: rest) || hasSubstr needle rest

/-- App.tsx lines 126-130: the condition under which the browser
`pollTask` returns from inside its loop.  `taskState`/`txHash` are first
filtered through truthiness (line 126-127), then the loop exits when a
hash is present or the lowercased state contains "success". -/
def browserIsFinal : Option TaskStatus → Bool
  | none => false
  | some s =>
      let taskState := if strTruthy s.taskState then some (s.taskState.getD "") else none
      let txHash := if strTruthy s.transactionHash then some (s.transactionHash.getD "") else none
      txHash.isSome ||
        (match taskState with
          | some t => hasSubstr "success".data (jsToLower t)
          | none => false)

/-- App.tsx lines 122-138: the browser `pollTask` loop over its
per-attempt oracle results.  It returns `some st` when it exits early on
status `st`, and `none` when the attempt budget is exhausted (the source
function returns `void`; a poll failure is logged and the loop
continues). -/
def pollTask : List (Except Unit (Option TaskStatus)) → Option (Option TaskStatus)
  | [] => none
  | .error _ :: rest => pollTask rest
  | .ok st :: rest => if browserIsFinal st then some st else pollTask rest

example : waitForTaskFinal [Except.ok (some ⟨some "CheckPending", some "0xabc"⟩)] =
    .early (some ⟨some "CheckPending", some "0xabc"⟩) := by decide

example : waitForTaskFinal [Except.ok (some ⟨some "CheckPending", none⟩)] =
    .exhausted (some ⟨some "CheckPending", none⟩) := by decide

example : waitForTaskFinal [Except.error (), Except.ok (some ⟨some "Cancelled", none⟩)] =
    .early (some ⟨some "Cancelled", none⟩) := by decide

example : browserIsFinal (some ⟨some "ExecSuccess", none⟩) = true := by decide

example : browserIsFinal (some ⟨some "Cancelled", none⟩) = false := by decide

example : pollTask [Except.ok (some ⟨some "Cancelled", none⟩), Except.ok (some ⟨some "ExecReverted", none⟩)] = none := by decide

theorem waitForTaskFinalLoop_early_isFinal :
    ∀ (fetches : List (Except Unit (Option TaskStatus))) (last st : Option TaskStatus),
      waitForTaskFinalLoop last fetches = .early st → isFinalStatus st = true
  | [], _, _, h => by simp [waitForTaskFinalLoop] at h
  | .error _ :: rest, last, st, h =>
      waitForTaskFinalLoop_early_isFinal rest last st h
  | .ok st' :: rest, last, st, h => by
      by_cases hf : isFinalStatus st' = true
      · have : st' = st := by simpa [waitForTaskFinalLoop, hf] using h
        exact this ▸ hf
      · exact waitForTaskFinalLoop_early_isFinal rest st' st
          (by simpa [waitForTaskFinalLoop, hf] using h)

theorem isFinalStatus_spec (st : Option TaskStatus) (h : isFinalStatus st = true) :
    ∃ s, st = some s ∧
      (strTruthy s.transactionHash = true ∨
        (strTruthy s.taskState = true ∧ (s.taskState.getD "") ∈ TERMINAL_STATES)) := by
  cases st with
  | none => simp [isFinalStatus] at h
  | some s =>
      refine ⟨s, rfl, ?_⟩
      simp only [isFinalStatus, Bool.or_eq_true, Bool.and_eq_true] at h
      rcases h with h | ⟨h1, h2⟩
      · exact Or.inl h
      · exact Or.inr ⟨h1, by simpa using h2⟩

/-- C1: the CLI poller `waitForTaskFinal` returns from inside its loop
(before exhausting its attempt budget) only on a status with a truthy
transaction hash or a task state in the fixed terminal vocabulary; in
particular a status carrying a hash together with the non-terminal
state "CheckPending" causes an immediate terminal return. -/
theorem waitForTaskFinal_early_only_terminal
    (fetches : List (Except Unit (Option TaskStatus))) (st : Option TaskStatus)
    (h : waitForTaskFinal fetches = .early st) :
    (∃ s, st = some s ∧
      (strTruthy s.transactionHash = true ∨
        (strTruthy s.taskState = true ∧ (s.taskState.getD "") ∈
          ["ExecSuccess", "ExecReverted", "Cancelled", "Blacklisted", "NotFound",
           "Reverted", "CancelledByUser"]))) ∧
    (∀ rest, waitForTaskFinal (Except.ok (some ⟨some "CheckPending", some "0xabc"⟩) :: rest) =
      .early (some ⟨some "CheckPending", some "0xabc"⟩)) ∧
    TERMINAL_STATES.contains "CheckPending" = false := by
  refine ⟨?_, ?_, by decide⟩
  · have hfin := waitForTaskFinalLoop_early_isFinal fetches none st h
    simpa [TERMINAL_STATES] using isFinalStatus_spec st hfin
  · intro rest
    simp [waitForTaskFinal, waitForTaskFinalLoop,
      show isFinalStatus (some ⟨some "CheckPending", some "0xabc"⟩) = true by decide]

theorem waitForTaskFinal_early_only_terminal_witness :
    waitForTaskFinal (Except.ok (some ⟨some "CheckPending", some "0xabc"⟩) :: []) =
      .early (some ⟨some "CheckPending", some "0xabc"⟩) :=
  (waitForTaskFinal_early_only_terminal [Except.ok (some ⟨some "ExecSuccess", none⟩)]
    (some ⟨some "ExecSuccess", none⟩) (by decide)).2.1 []

theorem waitForTaskFinalLoop_skip_error :
    ∀ (xs : List (Except Unit (Option TaskStatus))) (last : Option TaskStatus)
      (ys : List (Except Unit (Option TaskStatus))),
      waitForTaskFinalLoop last (xs ++ Except.error () :: ys) =
        waitForTaskFinalLoop last (xs ++ ys)
  | [], _, _ => rfl
  | .error _ :: rest, last, ys => waitForTaskFinalLoop_skip_error rest last ys
  | .ok st :: rest, last, ys => by
      show (if isFinalStatus st then PollOutcome.early st
            else waitForTaskFinalLoop st (rest ++ Except.error () :: ys)) =
          (if isFinalStatus st then PollOutcome.early st
            else waitForTaskFinalLoop st (rest ++ ys))
      by_cases hf : isFinalStatus st = true <;>
        simp [hf, waitForTaskFinalLoop_skip_error rest st ys]

theorem waitForTaskFinalLoop_all_nonfinal :
    ∀ (fetches : List (Except Unit (Option TaskStatus))) (last : Option TaskStatus),
      (fetches.all fun x => match x with
        | Except.ok st => !isFinalStatus st
        | Except.error _ => true) = true →
      waitForTaskFinalLoop last fetches = .exhausted (lastFetchedStatus last fetches)
  | [], _, _ => rfl
  | .error _ :: rest, last, h => by
      have h' : (rest.all fun x => match x with
          | Except.ok st => !isFinalStatus st
          | Except.error _ => true) = true := by
        simpa [List.all_cons] using h
      exact waitForTaskFinalLoop_all_nonfinal rest last h'
  | .ok st :: rest, last, h => by
      rw [List.all_cons, Bool.and_eq_true] at h
      have h1 : isFinalStatus st = false := by simpa using h.1
      show (if isFinalStatus st then PollOutcome.early st
            else waitForTaskFinalLoop st rest) = _
      rw [h1]
      simpa [lastFetchedStatus] using waitForTaskFinalLoop_all_nonfinal rest st h.2

/-- C8: a fetch failure in `waitForTaskFinal` is a no-op for that attempt
(deleting it from the fetch sequence does not change the outcome), and a
run in which no successful fetch satisfies the terminal condition falls
off the loop and returns the last successfully fetched status (none if
no fetch succeeded) as a normal, non-error result. -/
theorem waitForTaskFinal_failure_resilient :
    (∀ (xs ys : List (Except Unit (Option TaskStatus))),
      waitForTaskFinal (xs ++ Except.error () :: ys) = waitForTaskFinal (xs ++ ys)) ∧
    (∀ fetches : List (Except Unit (Option TaskStatus)),
      (fetches.all fun x => match x with
        | Except.ok st => !isFinalStatus st
        | Except.error _ => true) = true →
      waitForTaskFinal fetches = .exhausted (lastFetchedStatus none fetches)) :=
  ⟨fun xs ys => waitForTaskFinalLoop_skip_error xs none ys,
   fun fetches h => waitForTaskFinalLoop_all_nonfinal fetches none h⟩

theorem waitForTaskFinal_failure_resilient_witness :
    waitForTaskFinal [Except.error (), Except.ok (some ⟨some "CheckPending", none⟩)] =
      waitForTaskFinal [Except.ok (some ⟨some "CheckPending", none⟩)] ∧
    waitForTaskFinal [Except.error (), Except.ok (some ⟨some "CheckPending", none⟩)] =
      .exhausted (some ⟨some "CheckPending", none⟩) :=
  ⟨waitForTaskFinal_failure_resilient.1 [] [Except.ok (some ⟨some "CheckPending", none⟩)],
   waitForTaskFinal_failure_resilient.2
     [Except.error (), Except.ok (some ⟨some "CheckPending", none⟩)] (by decide)⟩

theorem pollTask_early_isFinal :
    ∀ (fetches : List (Except Unit (Option TaskStatus))) (st : Option TaskStatus),
      pollTask fetches = some st → browserIsFinal st = true
  | [], _, h => by simp [pollTask] at h
  | .error _ :: rest, st, h => pollTask_early_isFinal rest st h
  | .ok st' :: rest, st, h => by
      by_cases hf : browserIsFinal st' = true
      · have : st' = st := by simpa [pollTask, hf] using h
        exact this ▸ hf
      · exact pollTask_early_isFinal rest st (by simpa [pollTask, hf] using h)

theorem browserIsFinal_spec (st : Option TaskStatus) (h : browserIsFinal st = true) :
    ∃ s, st = some s ∧
      (strTruthy s.transactionHash = true ∨
        (strTruthy s.taskState = true ∧
          hasSubstr "success".data (jsToLower (s.taskState.getD "")) = true)) := by
  cases st with
  | none => simp [browserIsFinal] at h
  | some s =>
      refine ⟨s, rfl, ?_⟩
      by_cases htx : strTruthy s.transactionHash = true
      · exact Or.inl htx
      · by_cases hts : strTruthy s.taskState = true
        · refine Or.inr ⟨hts, ?_⟩
          simpa [browserIsFinal, htx, hts] using h
        · simp [browserIsFinal, htx, hts] at h

theorem pollTask_all_nonfinal :
    ∀ fs : List (Except Unit (Option TaskStatus)),
      (fs.all fun x => match x with
        | Except.ok st2 => !browserIsFinal st2
        | Except.error _ => true) = true →
      pollTask fs = none
  | [], _ => rfl
  | .error _ :: rest, h => by
      have h' : (rest.all fun x => match x with
          | Except.ok st2 => !browserIsFinal st2
          | Except.error _ => true) = true := by
        simpa [List.all_cons] using h
      exact pollTask_all_nonfinal rest h'
  | .ok st :: rest, h => by
      rw [List.all_cons, Bool.and_eq_true] at h
      have h1 : browserIsFinal st = false := by simpa using h.1
      show (if browserIsFinal st then some st else pollTask rest) = none
      rw [h1]
      simpa using pollTask_all_nonfinal rest h.2

/-- C9: the browser poller `pollTask` exits its loop early only on a
status with a truthy transaction hash or a task state whose lowercase
form contains "success"; a hash-less status in any other terminal state
(Cancelled, ExecReverted, Blacklisted, NotFound) never triggers the exit
condition, so such runs poll until the attempt budget is exhausted. -/
theorem pollTask_early_only_success_or_hash
    (fetches : List (Except Unit (Option TaskStatus))) (st : Option TaskStatus)
    (h : pollTask fetches = some st) :
    (∃ s, st = some s ∧
      (strTruthy s.transactionHash = true ∨
        (strTruthy s.taskState = true ∧
          hasSubstr "success".data (jsToLower (s.taskState.getD "")) = true))) ∧
    (∀ st2, st2 ∈ ["Cancelled", "ExecReverted", "Blacklisted", "NotFound"] →
      browserIsFinal (some ⟨some st2, none⟩) = false) ∧
    (∀ fs : List (Except Unit (Option TaskStatus)),
      (fs.all fun x => match x with
        | Except.ok st2 => !browserIsFinal st2
        | Except.error _ => true) = true →
      pollTask fs = none) :=
  ⟨browserIsFinal_spec st (pollTask_early_isFinal fetches st h),
   by decide,
   pollTask_all_nonfinal⟩

theorem pollTask_early_only_success_or_hash_witness :
    pollTask [Except.ok (some ⟨some "Cancelled", none⟩)] = none :=
  (pollTask_early_only_success_or_hash [Except.ok (some ⟨some "ExecSuccess", none⟩)]
    (some ⟨some "ExecSuccess", none⟩) (by decide)).2.2
    [Except.ok (some ⟨some "Cancelled", none⟩)] (by decide)

/-- relayHelpers.ts lines 221-234, the loop body of `retry`.  `fn a` is
the oracle outcome of the (0-based) attempt `a`; `remaining` is the
number of retries still allowed (the source condition
`attempt === maxRetries` corresponds to `remaining = 0`).  The second
component counts how many times the operation was invoked. -/
def retryGo {E T : Type} (fn : Nat → Except E T) (attempt : Nat) :
    Nat → Except E T × Nat
  | 0 =>
      match fn attempt with
      | .ok v => (.ok v, attempt + 1)
      | .error e => (.error e, attempt + 1)
  | r + 1 =>
      match fn attempt with
      | .ok v => (.ok v, attempt + 1)
      | .error _ => retryGo fn (attempt + 1) r

/-- relayHelpers.ts lines 221-234: `retry fn maxRetries` returns the
first successful result (throwing, i.e. `Except.error`, the last error
when every attempt fails) together with the number of invocations
made. -/
def retry {E T : Type} (fn : Nat → Except E T) (maxRetries : Nat) : Except E T × Nat :=
  retryGo fn 0 maxRetries

example : retry (fun i => if i = 1 then Except.ok 7 else Except.error i) 3 =
    (Except.ok 7, 2) := rfl

example : retry (fun i : Nat => (Except.error i : Except Nat Nat)) 2 =
    (Except.error 2, 3) := rfl

theorem retryGo_first_success {E T : Type} (fn : Nat → Except E T) :
    ∀ (r a j : Nat) (v : T), a ≤ j → j ≤ a + r → fn j = .ok v →
      (∀ i, a ≤ i → i < j → (fn i).isOk = false) →
      retryGo fn a r = (.ok v, j + 1)
  | 0, a, j, v, haj, hja, hok, _ => by
      have : j = a := Nat.le_antisymm (by omega) haj
      subst this
      simp [retryGo, hok]
  | r + 1, a, j, v, haj, hja, hok, hpre => by
      by_cases hja' : j = a
      · subst hja'
        simp [retryGo, hok]
      · have halt : a < j := Nat.lt_of_le_of_ne haj (fun h => hja' h.symm)
        have hea : (fn a).isOk = false := hpre a (Nat.le_refl a) halt
        have : ∃ e, fn a = .error e := by
          cases hfa : fn a with
          | ok w => rw [hfa] at hea; simp [Except.isOk, Except.toBool] at hea
          | error e => exact ⟨e, rfl⟩
        obtain ⟨e, hfa⟩ := this
        show (match fn a with
          | .ok v => (Except.ok v, a + 1)
          | .error _ => retryGo fn (a + 1) r) = (Except.ok v, j + 1)
        rw [hfa]
        exact retryGo_first_success fn r (a + 1) j v (by omega) (by omega) hok
          (fun i h1 h2 => hpre i (by omega) h2)

theorem retryGo_all_fail {E T : Type} (fn : Nat → Except E T) :
    ∀ (r a : Nat), (∀ i, a ≤ i → i ≤ a + r → (fn i).isOk = false) →
      retryGo fn a r = (fn (a + r), a + r + 1)
  | 0, a, h => by
      have hea : (fn a).isOk = false := h a (Nat.le_refl a) (by omega)
      cases hfa : fn a with
      | ok w => rw [hfa] at hea; simp [Except.isOk, Except.toBool] at hea
      | error e => simp [retryGo, hfa]
  | r + 1, a, h => by
      have hea : (fn a).isOk = false := h a (Nat.le_refl a) (by omega)
      have : ∃ e, fn a = .error e := by
        cases hfa : fn a with
        | ok w => rw [hfa] at hea; simp [Except.isOk, Except.toBool] at hea
        | error e => exact ⟨e, rfl⟩
      obtain ⟨e, hfa⟩ := this
      show (match fn a with
        | .ok v => (Except.ok v, a + 1)
        | .error _ => retryGo fn (a + 1) r) = _
      rw [hfa]
      have heq := retryGo_all_fail fn r (a + 1) (fun i h1 h2 => h i (by omega) (by omega))
      rw [show a + 1 + r = a + (r + 1) from by omega] at heq
      rw [heq]

/-- C2: `retry` invokes the operation exactly min(k, maxRetries+1)
times, where k is the 1-based index of the first successful attempt:
when the first success is attempt j (0-based, j ≤ maxRetries) it stops
after j+1 invocations and returns that result, and when every attempt
up to maxRetries fails it stops after maxRetries+1 invocations and
propagates exactly the final attempt's error, unchanged. -/
theorem retry_spec {E T : Type} (fn : Nat → Except E T) (maxRetries : Nat) :
    (∀ (j : Nat) (v : T), j ≤ maxRetries → fn j = .ok v →
      (∀ i, i < j → (fn i).isOk = false) →
      retry fn maxRetries = (.ok v, j + 1)) ∧
    ((∀ i, i ≤ maxRetries → (fn i).isOk = false) →
      retry fn maxRetries = (fn maxRetries, maxRetries + 1)) := by
  constructor
  · intro j v hj hok hpre
    exact retryGo_first_success fn maxRetries 0 j v (Nat.zero_le j) (by omega) hok
      (fun i _ h2 => hpre i h2)
  · intro h
    have := retryGo_all_fail fn maxRetries 0 (fun i _ h2 => h i (by omega))
    simpa using this

theorem retry_spec_witness :
    retry (fun i => if i = 1 then Except.ok 7 else Except.error i) 3 = (Except.ok 7, 2) ∧
    retry (fun i : Nat => (Except.error i : Except Nat Nat)) 2 = (Except.error 2, 3) :=
  ⟨(retry_spec (fun i => if i = 1 then Except.ok 7 else Except.error i) 3).1 1 7
      (by decide) rfl (by decide),
   (retry_spec (fun i : Nat => (Except.error i : Except Nat Nat)) 2).2 (by decide)⟩

/-- Is the character one of 0-9, a-f, A-F (a hex digit as consumed by
JS parseInt with radix 16). -/
def isHexDigit (c : Char) : Bool :=
  c.isDigit || (decide ('a' ≤ c) && decide (c ≤ 'f')) || (decide ('A' ≤ c) && decide (c ≤ 'F'))

/-- The numeric value of a hex digit character. -/
def hexVal (c : Char) : Nat :=
  if c.isDigit then c.toNat - 48
  else if 'a' ≤ c ∧ c ≤ 'f' then c.toNat - 87
  else c.toNat - 55

/-- Model of JS `Number.parseInt(s, 16)` on a character list: trim
leading whitespace, read an optional sign, strip an optional "0x"/"0X"
prefix, then take the longest prefix of hex digits; the result is NaN
(here `none`) when that prefix is empty. -/
def parseIntHex (s : List Char) : Option Int :=
  let t := s.dropWhile Char.isWhitespace
  let sign : Int := if t.head? = some '-' then -1 else 1
  let t1 := if t.head? = some '-' ∨ t.head? = some '+' then t.tail else t
  let t2 := if t1.take 2 = ['0', 'x'] ∨ t1.take 2 = ['0', 'X'] then t1.drop 2 else t1
  let digits := t2.takeWhile isHexDigit
  if digits.isEmpty then none
  else some (sign * (digits.foldl (fun acc c => 16 * acc + hexVal c) 0 : Nat))

/-- The three components produced by `splitSignature`: v is the
parseInt result (NaN = `none`), r and s are hex strings. -/
structure SignatureParts where
  v : Option Int
  r : List Char
  s : List Char
deriving DecidableEq

/-- relayHelpers.ts line 125: strip a leading "0x" if present. -/
def rawOfSignature (signature : List Char) : List Char :=
  if ['0', 'x'].isPrefixOf signature then signature.drop 2 else signature

/-- relayHelpers.ts lines 124-130: split a signature hex string into
r = "0x" ++ chars [0,64), s = "0x" ++ chars [64,128), and
v = parseInt of chars [128,130) in base 16. -/
def splitSignature (signature : List Char) : SignatureParts :=
  let raw := rawOfSignature signature
  { r := '0' :: 'x' :: raw.take 64,
    s := '0' :: 'x' :: (raw.drop 64).take 64,
    v := parseIntHex ((raw.drop 128).take 2) }

/-- Byte view of a hex string: consecutive pairs of hex digits read as
byte values (a trailing unpaired character contributes nothing). -/
def hexToBytes : List Char → List Nat
  | hi :: lo :: rest => (16 * hexVal hi + hexVal lo) :: hexToBytes rest
  | _ => []

theorem hexToBytes_cons₂ (hi lo : Char) (rest : List Char) :
    hexToBytes (hi :: lo :: rest) = (16 * hexVal hi + hexVal lo) :: hexToBytes rest := rfl

theorem hexToBytes_length : ∀ l : List Char, (hexToBytes l).length = l.length / 2
  | [] => rfl
  | [c] => by
      have h0 : hexToBytes [c] = [] := rfl
      rw [h0]
      simp
  | _ :: _ :: rest => by
      rw [hexToBytes_cons₂, List.length_cons, List.length_cons, List.length_cons,
        hexToBytes_length rest]
      omega

theorem hexToBytes_append : ∀ (l1 l2 : List Char), l1.length % 2 = 0 →
    hexToBytes (l1 ++ l2) = hexToBytes l1 ++ hexToBytes l2
  | [], _, _ => rfl
  | [_], _, h => by simp at h
  | a :: b :: rest, l2, h => by
      rw [List.cons_append, List.cons_append, hexToBytes_cons₂, hexToBytes_cons₂,
        hexToBytes_append rest l2 (by simp [List.length_cons] at h ⊢; omega), List.cons_append]

theorem getD_eq_headD_drop {α : Type} : ∀ (l : List α) (n : Nat) (d : α),
    l.getD n d = (l.drop n).headD d
  | [], n, d => by simp [List.getD]
  | _ :: _, 0, _ => rfl
  | _ :: l, n + 1, d => by
      rw [List.getD_cons_succ, List.drop_succ_cons]
      exact getD_eq_headD_drop l n d

theorem isHexDigit_ne (c : Char) (h : isHexDigit c = true) :
    c.isWhitespace = false ∧ c ≠ '-' ∧ c ≠ '+' ∧ c ≠ 'x' ∧ c ≠ 'X' := by
  refine ⟨?_, ?_, ?_, ?_, ?_⟩
  · by_contra hw
    rw [Bool.not_eq_false] at hw
    simp only [Char.isWhitespace, Bool.or_eq_true, decide_eq_true_eq] at hw
    rcases hw with ((hw | hw) | hw) | hw <;> subst hw <;> exact absurd h (by decide)
  · intro he; subst he; exact absurd h (by decide)
  · intro he; subst he; exact absurd h (by decide)
  · intro he; subst he; exact absurd h (by decide)
  · intro he; subst he; exact absurd h (by decide)

theorem parseIntHex_pair (hi lo : Char) (hhi : isHexDigit hi = true)
    (hlo : isHexDigit lo = true) :
    parseIntHex [hi, lo] = some ((16 * hexVal hi + hexVal lo : Nat) : Int) := by
  obtain ⟨hw, hm, hp, _, _⟩ := isHexDigit_ne hi hhi
  obtain ⟨_, _, _, hx, hX⟩ := isHexDigit_ne lo hlo
  simp only [parseIntHex, List.dropWhile_cons, hw, Bool.false_eq_true, if_false,
    List.head?_cons, Option.some.injEq, hm, hp, false_or, if_neg, List.take_cons,
    List.cons.injEq, List.takeWhile_cons, hhi, hlo, if_true]
  norm_num [hm, hp, hx, hX, List.takeWhile_cons, hhi, hlo]

/-- C3: for a well-formed 65-byte signature (130 hex characters after
optional "0x" stripping), splitSignature returns r covering bytes
[0,32), s covering bytes [32,64), and v equal to byte 64 read as an
unsigned integer (any byte value passes through unrestricted);
concatenating the bytes of r, s and v reproduces the original 65-byte
sequence exactly. -/
theorem splitSignature_roundtrip (sig : List Char)
    (hlen : (rawOfSignature sig).length = 130)
    (hhex : ∀ c ∈ rawOfSignature sig, isHexDigit c = true) :
    hexToBytes ((splitSignature sig).r.drop 2) = (hexToBytes (rawOfSignature sig)).take 32 ∧
    hexToBytes ((splitSignature sig).s.drop 2) =
      ((hexToBytes (rawOfSignature sig)).drop 32).take 32 ∧
    (splitSignature sig).v = some (((hexToBytes (rawOfSignature sig)).getD 64 0 : Nat) : Int) ∧
    hexToBytes ((splitSignature sig).r.drop 2) ++ hexToBytes ((splitSignature sig).s.drop 2) ++
      [(hexToBytes (rawOfSignature sig)).getD 64 0] = hexToBytes (rawOfSignature sig) := by
  set raw := rawOfSignature sig with hraw
  have hr : (splitSignature sig).r.drop 2 = raw.take 64 := rfl
  have hs : (splitSignature sig).s.drop 2 = (raw.drop 64).take 64 := rfl
  have hv0 : (splitSignature sig).v = parseIntHex ((raw.drop 128).take 2) := rfl
  have hA : (raw.take 64).length = 64 := by rw [List.length_take, hlen]; omega
  have hB : ((raw.drop 64).take 64).length = 64 := by
    rw [List.length_take, List.length_drop, hlen]; omega
  have hC : (raw.drop 128).length = 2 := by rw [List.length_drop, hlen]
  obtain ⟨hi, lo, hC2⟩ := List.length_eq_two.mp hC
  have hhexhi : isHexDigit hi = true :=
    hhex hi (List.mem_of_mem_drop (n := 128) (by rw [hC2]; exact List.mem_cons_self _ _))
  have hhexlo : isHexDigit lo = true :=
    hhex lo (List.mem_of_mem_drop (n := 128)
      (by rw [hC2]; exact List.mem_cons_of_mem _ (List.mem_cons_self _ _)))
  have hdd : (raw.drop 64).drop 64 = raw.drop 128 := by rw [List.drop_drop]
  have hbytes : hexToBytes raw =
      hexToBytes (raw.take 64) ++
        (hexToBytes ((raw.drop 64).take 64) ++ hexToBytes (raw.drop 128)) := by
    calc hexToBytes raw = hexToBytes (raw.take 64 ++ raw.drop 64) := by
          rw [List.take_append_drop]
      _ = hexToBytes (raw.take 64) ++ hexToBytes (raw.drop 64) :=
          hexToBytes_append _ _ (by rw [hA])
      _ = hexToBytes (raw.take 64) ++
            (hexToBytes ((raw.drop 64).take 64) ++ hexToBytes (raw.drop 128)) := by
          rw [← hdd]
          conv_lhs => rw [show raw.drop 64 = (raw.drop 64).take 64 ++ (raw.drop 64).drop 64
            from (List.take_append_drop 64 (raw.drop 64)).symm]
          rw [hexToBytes_append _ _ (by rw [hB])]
  have htbC : hexToBytes (raw.drop 128) = [16 * hexVal hi + hexVal lo] := by
    rw [hC2]; rfl
  have hlenA32 : (hexToBytes (raw.take 64)).length = 32 := by
    rw [hexToBytes_length, hA]
  have hlenB32 : (hexToBytes ((raw.drop 64).take 64)).length = 32 := by
    rw [hexToBytes_length, hB]
  have hdrop64 : (hexToBytes raw).drop 64 = [16 * hexVal hi + hexVal lo] := by
    rw [hbytes, ← List.append_assoc, htbC,
      List.drop_left' (by rw [List.length_append, hlenA32, hlenB32])]
  have hgetD : (hexToBytes raw).getD 64 0 = 16 * hexVal hi + hexVal lo := by
    rw [getD_eq_headD_drop, hdrop64]; rfl
  refine ⟨?_, ?_, ?_, ?_⟩
  · rw [hr, hbytes, List.take_left' hlenA32]
  · rw [hs, hbytes, List.drop_left' hlenA32, List.take_left' hlenB32]
  · rw [hv0, hgetD, show (raw.drop 128).take 2 = [hi, lo] by rw [hC2]; rfl,
      parseIntHex_pair hi lo hhexhi hhexlo]

  · rw [hr, hs, hgetD, hbytes, htbC, List.append_assoc]

set_option maxRecDepth 4000 in
theorem splitSignature_roundtrip_witness :
    (splitSignature (List.replicate 130 'a')).v = some ((170 : Nat) : Int) :=
  (splitSignature_roundtrip (List.replicate 130 'a') (by decide) (by decide)).2.2.1

/-- C10: splitSignature is total over all inputs (it is a function in
the model, never throwing): r and s are "0x"-prefixed slices truncated
to the characters available after prefix stripping (r's payload is
always a prefix of the raw input), and when fewer than 129 characters
remain the parsed v is NaN (`none`). -/
theorem splitSignature_total (sig : List Char) :
    (splitSignature sig).r.length = 2 + min 64 (rawOfSignature sig).length ∧
    (splitSignature sig).s.length = 2 + min 64 ((rawOfSignature sig).length - 64) ∧
    ((rawOfSignature sig).length ≤ 128 → (splitSignature sig).v = none) ∧
    (splitSignature sig).r.drop 2 <+: rawOfSignature sig := by
  refine ⟨?_, ?_, ?_, ?_⟩
  · simp only [splitSignature, List.length_cons, List.length_take]
    omega
  · simp only [splitSignature, List.length_cons, List.length_take, List.length_drop]
    omega
  · intro hle
    have h0 : (rawOfSignature sig).drop 128 = [] := List.drop_eq_nil_of_le (by omega)
    show parseIntHex (((rawOfSignature sig).drop 128).take 2) = none
    rw [h0]
    rfl
  · show ((rawOfSignature sig).take 64 : List Char) <+: rawOfSignature sig
    exact List.take_prefix _ _

theorem splitSignature_total_witness :
    (splitSignature ['0', 'x', 'a', 'b']).v = none :=
  (splitSignature_total ['0', 'x', 'a', 'b']).2.2.1 (by decide)

/-- incrementWithPermitFeeCapped.ts line 78 and
permitSwapAndPayFeeNative.ts line 90 (also App.tsx line 199): the fee
ceiling sent to the contract,
`maxFee = estimatedFee * (10000 + bufferBps) / 10000` with truncating
integer (bigint) division; both operands are non-negative in every call
site, so Nat models the bigint arithmetic. -/
def maxFee (estimatedFee bufferBps : Nat) : Nat :=
  estimatedFee * (10000 + bufferBps) / 10000

example : maxFee 100 500 = 105 := by decide

example : maxFee 3 1 = 3 := by decide

/-- C4: the fee ceiling is monotone non-decreasing in the estimated fee
and in the buffer separately, and collapses to the estimate exactly
when the buffer is zero. -/
theorem maxFee_monotone_and_exact (e1 e2 b b1 b2 e : Nat) :
    (e1 ≤ e2 → maxFee e1 b ≤ maxFee e2 b) ∧
    (b1 ≤ b2 → maxFee e b1 ≤ maxFee e b2) ∧
    maxFee e 0 = e := by
  refine ⟨?_, ?_, ?_⟩
  · intro h
    exact Nat.div_le_div_right (Nat.mul_le_mul_right _ h)
  · intro h
    exact Nat.div_le_div_right (Nat.mul_le_mul_left _ (by omega))
  · show e * (10000 + 0) / 10000 = e
    omega

theorem maxFee_monotone_and_exact_witness :
    maxFee 100 500 ≤ maxFee 200 500 ∧ maxFee 100 100 ≤ maxFee 100 500 ∧
      maxFee 100 0 = 100 :=
  ⟨(maxFee_monotone_and_exact 100 200 500 0 0 0).1 (by omega),
   (maxFee_monotone_and_exact 0 0 0 100 500 100).2.1 (by omega),
   (maxFee_monotone_and_exact 0 0 0 0 0 100).2.2⟩

/-- Outcome of the browser submit handler's validation phase: either a
rejection with the reported error message (no network call is reached),
or proceeding with the parsed amount to the network phase (permit
building and relay submission). -/
inductive SubmitDecision where
  | rejected (message : String)
  | proceed (parsedAmount : Int)
deriving DecidableEq

/-- App.tsx lines 140-169, the validation phase of `handleSubmit`:
wallet connected, relay API key configured (truthiness of the string),
token decimals and balance loaded, amount parses (the viem `parseUnits`
try/catch is modelled by the `parsedAmount : Option Int` oracle), amount
positive, amount not exceeding the balance.  Each failing check
reports its error and returns before any network call. -/
def handleSubmitValidation (hasWallet : Bool) (relayApiKey : Option String)
    (tokenDecimals : Option Nat) (tokenBalance : Option Int)
    (parsedAmount : Option Int) : SubmitDecision :=
  if !hasWallet then .rejected "Connect your wallet first."
  else if !(strTruthy relayApiKey) then
    .rejected "Set VITE_GELATO_RELAY_API_KEY in frontend/.env before submitting."
  else if tokenDecimals.isNone || tokenBalance.isNone then
    .rejected "Token balance is not loaded yet."
  else
    match parsedAmount with
    | none => .rejected "Invalid amount format."
    | some amt =>
      if amt ≤ 0 then .rejected "Amount must be greater than zero."
      else if amt > tokenBalance.getD 0 then .rejected "Insufficient balance."
      else .proceed amt

/-- src/unnamed/part_000 lines 140-169: the other committed variant of
the browser submit handler's validation phase.  It is identical to
`handleSubmitValidation` except for the balance check: it rejects
already when the parsed amount equals the balance
(`parsedAmount >= tokenBalance`, "Amount must be smaller than your
balance."). -/
def handleSubmitValidationStrict (hasWallet : Bool) (relayApiKey : Option String)
    (tokenDecimals : Option Nat) (tokenBalance : Option Int)
    (parsedAmount : Option Int) : SubmitDecision :=
  if !hasWallet then .rejected "Connect your wallet first."
  else if !(strTruthy relayApiKey) then
    .rejected "Set VITE_GELATO_RELAY_API_KEY in frontend/.env before submitting."
  else if tokenDecimals.isNone || tokenBalance.isNone then
    .rejected "Token balance is not loaded yet."
  else
    match parsedAmount with
    | none => .rejected "Invalid amount format."
    | some amt =>
      if amt ≤ 0 then .rejected "Amount must be greater than zero."
      else if amt ≥ tokenBalance.getD 0 then .rejected "Amount must be smaller than your balance."
      else .proceed amt

/-- C5 counterexample: the claim "the flow proceeds past validation iff
0 < amount ≤ balance" is false for the cited src/unnamed/part_000
handler at amount = balance = 3: 0 < 3 ∧ 3 ≤ 3 holds, yet that variant
rejects with "Amount must be smaller than your balance." instead of
proceeding. -/
theorem handleSubmit_validation_claim_counterexample :
    ((0 : Int) < 3 ∧ (3 : Int) ≤ 3) ∧
    handleSubmitValidationStrict true (some "key") (some 6) (some 3) (some 3) =
      .rejected "Amount must be smaller than your balance." ∧
    handleSubmitValidationStrict true (some "key") (some 6) (some 3) (some 3) ≠
      .proceed 3 := by
  refine ⟨by norm_num, by decide, by decide⟩

/-- C5 (amended): with a connected wallet, a configured API key, a
loaded balance and a successfully parsed amount, the App.tsx submit
handler proceeds past validation to the network phase exactly when
0 < amount ≤ balance, while the src/unnamed/part_000 variant proceeds
exactly when 0 < amount < balance; in every other case the respective
handler reports a validation error (no network call). -/
theorem handleSubmit_validation_variants (key : String) (d : Nat) (b a : Int)
    (hkey : strTruthy (some key) = true) :
    (handleSubmitValidation true (some key) (some d) (some b) (some a) =
        .proceed a ↔ (0 < a ∧ a ≤ b)) ∧
    (¬(0 < a ∧ a ≤ b) → ∃ m, handleSubmitValidation true (some key) (some d) (some b)
        (some a) = .rejected m) ∧
    (handleSubmitValidationStrict true (some key) (some d) (some b) (some a) =
        .proceed a ↔ (0 < a ∧ a < b)) ∧
    (¬(0 < a ∧ a < b) → ∃ m, handleSubmitValidationStrict true (some key) (some d)
        (some b) (some a) = .rejected m) := by
  have hunfold : handleSubmitValidation true (some key) (some d) (some b) (some a) =
      if a ≤ 0 then .rejected "Amount must be greater than zero."
      else if a > b then .rejected "Insufficient balance."
      else .proceed a := by
    simp [handleSubmitValidation, hkey]
  have hunfold2 : handleSubmitValidationStrict true (some key) (some d) (some b) (some a) =
      if a ≤ 0 then .rejected "Amount must be greater than zero."
      else if a ≥ b then .rejected "Amount must be smaller than your balance."
      else .proceed a := by
    simp [handleSubmitValidationStrict, hkey]
  refine ⟨?_, ?_, ?_, ?_⟩
  · rw [hunfold]
    constructor
    · intro h
      by_cases h1 : a ≤ 0
      · simp [h1] at h
      · by_cases h2 : a > b
        · simp [h1, h2] at h
        · omega
    · intro ⟨h1, h2⟩
      rw [if_neg (by omega), if_neg (by omega)]
  · intro hnot
    rw [hunfold]
    by_cases h1 : a ≤ 0
    · exact ⟨"Amount must be greater than zero.", by rw [if_pos h1]⟩
    · exact ⟨"Insufficient balance.", by rw [if_neg h1, if_pos (by omega)]⟩
  · rw [hunfold2]
    constructor
    · intro h
      by_cases h1 : a ≤ 0
      · simp [h1] at h
      · by_cases h2 : a ≥ b
        · simp [h1, h2] at h
        · omega
    · intro ⟨h1, h2⟩
      rw [if_neg (by omega), if_neg (by omega)]
  · intro hnot
    rw [hunfold2]
    by_cases h1 : a ≤ 0
    · exact ⟨"Amount must be greater than zero.", by rw [if_pos h1]⟩
    · exact ⟨"Amount must be smaller than your balance.",
        by rw [if_neg h1, if_pos (by omega)]⟩

theorem handleSubmit_validation_variants_witness :
    (∃ m, handleSubmitValidation true (some "key") (some 6) (some 3) (some 5) =
      .rejected m) ∧
    (∃ m, handleSubmitValidationStrict true (some "key") (some 6) (some 3) (some 3) =
      .rejected m) :=
  ⟨(handleSubmit_validation_variants "key" 6 3 5 (by decide)).2.1 (by omega),
   (handleSubmit_validation_variants "key" 6 3 3 (by decide)).2.2.2 (by omega)⟩

/-- An EIP-712 domain as constructed at relayHelpers.ts lines 154-159.
Addresses are hex strings. -/
structure Eip712Domain where
  name : String
  version : String
  chainId : Nat
  verifyingContract : String
deriving DecidableEq

/-- The Permit message constructed at relayHelpers.ts lines 162-168. -/
structure PermitMessage where
  owner : String
  spender : String
  value : Int
  nonce : Nat
  deadline : Int
deriving DecidableEq

/-- The full typed-data request handed to the signer at
relayHelpers.ts lines 153-169: domain, type schema (field name/type
pairs in declaration order), primary type and message. -/
structure TypedDataPayload where
  domain : Eip712Domain
  typeFields : List (String × String)
  primaryType : String
  message : PermitMessage
deriving DecidableEq

/-- relayHelpers.ts lines 10-18: the `Permit` schema's ordered fields. -/
def PERMIT_TYPES : List (String × String) :=
  [("owner", "address"), ("spender", "address"), ("value", "uint256"),
   ("nonce", "uint256"), ("deadline", "uint256")]

/-- Oracle view of the ERC-20 permit token contract: the outcome of
each read issued by `readPermitMetadata` (relayHelpers.ts lines
115-119).  `Except.error` models a rejected RPC call. -/
structure TokenChain (E : Type) where
  name : Except E String
  version : Except E String
  decimals : Except E Nat
  nonces : String → Except E Nat

/-- relayHelpers.ts lines 91-101: read `version()`, returning "1" on
any failure (the catch branch). -/
def readTokenVersion {E : Type} (chain : TokenChain E) : Except E String :=
  match chain.version with
  | .ok v => .ok v
  | .error _ => .ok "1"

/-- relayHelpers.ts lines 103-108. -/
structure PermitMeta where
  name : String
  version : String
  decimals : Nat
  nonce : Nat
deriving DecidableEq

/-- relayHelpers.ts lines 110-122: gather name, version (with
fallback), decimals and the owner's current nonce.  The source issues
the four reads concurrently via Promise.all and fails if any fails;
sequential Except-binding models the same success/failure outcomes. -/
def readPermitMetadata {E : Type} (chain : TokenChain E) (owner : String) :
    Except E PermitMeta := do
  let name ← chain.name
  let version ← readTokenVersion chain
  let decimals ← chain.decimals
  let nonce ← chain.nonces owner
  return { name := name, version := version, decimals := decimals, nonce := nonce }

/-- Parameters of `buildPermitSignature` (relayHelpers.ts lines
140-149), minus the injected capabilities. -/
structure BuildParams where
  owner : String
  token : String
  spender : String
  amountInput : String
  permitDeadline : Int
  chainId : Nat

/-- The result record of relayHelpers.ts line 171. -/
structure PermitSignatureResult where
  amount : Int
  v : Option Int
  r : List Char
  s : List Char
  decimals : Nat

/-- relayHelpers.ts lines 140-172: read fresh metadata, scale the
amount (viem's `parseUnits` is an external library function, injected
as the oracle `parseUnitsFn`), build the typed-data payload from that
same metadata, obtain a signature from the injected signer, split it,
and return the components. -/
def buildPermitSignature {E : Type} (chain : TokenChain E)
    (parseUnitsFn : String → Nat → Int)
    (signTypedData : TypedDataPayload → Except E (List Char))
    (p : BuildParams) : Except E PermitSignatureResult := do
  let meta ← readPermitMetadata chain p.owner
  let amount := parseUnitsFn p.amountInput meta.decimals
  let signature ← signTypedData
    { domain := { name := meta.name, version := meta.version, chainId := p.chainId, verifyingContract := p.token },
      typeFields := PERMIT_TYPES,
      primaryType := "Permit",
      message := { owner := p.owner, spender := p.spender, value := amount, nonce := meta.nonce, deadline := p.permitDeadline } }
  let parts := splitSignature signature
  return { amount := amount, v := parts.v, r := parts.r, s := parts.s, decimals := meta.decimals }

/-- C6: on any run of `buildPermitSignature` whose metadata reads
succeed, the typed-data payload handed to the signer (observed here
through a recording signer, which receives exactly what any signer
receives) has domain {name, version, chainId, verifyingContract = token}
drawn from the metadata of that same call, primary type "Permit" with
fields ordered (owner, spender, value, nonce, deadline), and a message
nonce equal to the nonce just read. -/
theorem buildPermitSignature_payload (chain : TokenChain TypedDataPayload)
    (parseUnitsFn : String → Nat → Int) (p : BuildParams) (meta : PermitMeta)
    (h : readPermitMetadata chain p.owner = .ok meta) :
    ∃ P : TypedDataPayload,
      buildPermitSignature chain parseUnitsFn (fun q => Except.error q) p =
        Except.error P ∧
      P.domain = { name := meta.name, version := meta.version, chainId := p.chainId, verifyingContract := p.token } ∧
      P.primaryType = "Permit" ∧
      P.typeFields = [("owner", "address"), ("spender", "address"), ("value", "uint256"),
        ("nonce", "uint256"), ("deadline", "uint256")] ∧
      P.message.nonce = meta.nonce ∧
      P.message = { owner := p.owner, spender := p.spender, value := parseUnitsFn p.amountInput meta.decimals, nonce := meta.nonce, deadline := p.permitDeadline } := by
  have h2 : buildPermitSignature chain parseUnitsFn (fun q => Except.error q) p =
      Except.error ⟨⟨meta.name, meta.version, p.chainId, p.token⟩, PERMIT_TYPES, "Permit",
        ⟨p.owner, p.spender, parseUnitsFn p.amountInput meta.decimals, meta.nonce, p.permitDeadline⟩⟩ := by
    simp only [buildPermitSignature, h]
    rfl
  exact ⟨_, h2, rfl, rfl, rfl, rfl, rfl⟩

theorem buildPermitSignature_payload_witness :
    ∃ P : TypedDataPayload,
      buildPermitSignature
        (⟨Except.ok "Tok", Except.ok "2", Except.ok 6, fun _ => Except.ok 5⟩ :
          TokenChain TypedDataPayload)
        (fun _ _ => (100 : Int)) (fun q => Except.error q)
        ⟨"0xowner", "0xtoken", "0xspender", "100", 1000, 8453⟩ =
        Except.error P ∧
      P.domain = { name := "Tok", version := "2", chainId := 8453, verifyingContract := "0xtoken" } ∧
      P.primaryType = "Permit" ∧
      P.typeFields = [("owner", "address"), ("spender", "address"), ("value", "uint256"),
        ("nonce", "uint256"), ("deadline", "uint256")] ∧
      P.message.nonce = 5 ∧
      P.message = { owner := "0xowner", spender := "0xspender", value := 100, nonce := 5, deadline := 1000 } :=
  buildPermitSignature_payload _ _ _ ⟨"Tok", "2", 6, 5⟩ rfl

/-- C7: when the version() read fails, `readTokenVersion` returns "1"
instead of failing, `readPermitMetadata` succeeds with version "1"
provided the name, decimals and nonces reads succeed, and permit
construction succeeds with an EIP-712 domain carrying version "1"
(observed through the recording signer, and through a succeeding
signer); a failure of the name, decimals or nonces read, or of the
signer, propagates as the overall failure. -/
theorem readTokenVersion_fallback (chain : TokenChain TypedDataPayload) (owner : String)
    (parseUnitsFn : String → Nat → Int) (p : BuildParams) :
    (∀ e, chain.version = .error e → readTokenVersion chain = .ok "1") ∧
    (∀ e n d k, chain.version = .error e → chain.name = .ok n → chain.decimals = .ok d →
      chain.nonces owner = .ok k →
      readPermitMetadata chain owner = .ok ⟨n, "1", d, k⟩) ∧
    (∀ e, chain.name = .error e → readPermitMetadata chain owner = .error e) ∧
    (∀ n e, chain.name = .ok n → chain.decimals = .error e →
      readPermitMetadata chain owner = .error e) ∧
    (∀ n d e, chain.name = .ok n → chain.decimals = .ok d → chain.nonces owner = .error e →
      readPermitMetadata chain owner = .error e) ∧
    (∀ m esig, readPermitMetadata chain p.owner = .ok m →
      buildPermitSignature chain parseUnitsFn (fun _ => Except.error esig) p = .error esig) ∧
    (∀ e n d k, chain.version = .error e → chain.name = .ok n → chain.decimals = .ok d →
      chain.nonces p.owner = .ok k →
      ∃ P, buildPermitSignature chain parseUnitsFn (fun q => Except.error q) p = .error P ∧
        P.domain.version = "1") ∧
    (∀ m sig, readPermitMetadata chain p.owner = .ok m →
      (buildPermitSignature chain parseUnitsFn (fun _ => Except.ok sig) p).isOk = true) := by
  have hver : ∀ e, chain.version = .error e → readTokenVersion chain = .ok "1" := by
    intro e he
    unfold readTokenVersion
    rw [he]
  have hmeta : ∀ e n d k, chain.version = .error e → chain.name = .ok n →
      chain.decimals = .ok d → chain.nonces owner = .ok k →
      readPermitMetadata chain owner = .ok ⟨n, "1", d, k⟩ := by
    intro e n d k hv hn hd hk
    simp only [readPermitMetadata, hver e hv, hn, hd, hk]
    rfl
  have hmeta' : ∀ e n d k, chain.version = .error e → chain.name = .ok n →
      chain.decimals = .ok d → chain.nonces p.owner = .ok k →
      readPermitMetadata chain p.owner = .ok ⟨n, "1", d, k⟩ := by
    intro e n d k hv hn hd hk
    simp only [readPermitMetadata, hver e hv, hn, hd, hk]
    rfl
  refine ⟨hver, hmeta, ?_, ?_, ?_, ?_, ?_, ?_⟩
  · intro e he
    simp only [readPermitMetadata, he]
    rfl
  · intro n e hn hd
    simp only [readPermitMetadata, hn, hd]
    cases hv : chain.version <;> simp only [readTokenVersion, hv] <;> rfl
  · intro n d e hn hd hk
    simp only [readPermitMetadata, hn, hd, hk]
    cases hv : chain.version <;> simp only [readTokenVersion, hv] <;> rfl
  · intro m esig hm
    simp only [buildPermitSignature, hm]
    rfl
  · intro e n d k hv hn hd hk
    have hb : buildPermitSignature chain parseUnitsFn (fun q => Except.error q) p =
        Except.error ⟨⟨n, "1", p.chainId, p.token⟩, PERMIT_TYPES, "Permit",
          ⟨p.owner, p.spender, parseUnitsFn p.amountInput d, k, p.permitDeadline⟩⟩ := by
      simp only [buildPermitSignature, hmeta' e n d k hv hn hd hk]
      rfl
    exact ⟨_, hb, rfl⟩
  · intro m sig hm
    simp only [buildPermitSignature, hm]
    rfl

theorem readTokenVersion_fallback_witness :
    readTokenVersion
      (⟨Except.ok "T", Except.error ⟨⟨"", "", 0, ""⟩, [], "", ⟨"", "", 0, 0, 0⟩⟩,
        Except.ok 6, fun _ => Except.ok 5⟩ : TokenChain TypedDataPayload) = .ok "1" ∧
    readPermitMetadata
      (⟨Except.ok "T", Except.error ⟨⟨"", "", 0, ""⟩, [], "", ⟨"", "", 0, 0, 0⟩⟩,
        Except.ok 6, fun _ => Except.ok 5⟩ : TokenChain TypedDataPayload) "o" =
      .ok ⟨"T", "1", 6, 5⟩ ∧
    readPermitMetadata
      (⟨Except.error ⟨⟨"", "", 0, ""⟩, [], "", ⟨"", "", 0, 0, 0⟩⟩, Except.ok "1",
        Except.ok 6, fun _ => Except.ok 5⟩ : TokenChain TypedDataPayload) "o" =
      .error ⟨⟨"", "", 0, ""⟩, [], "", ⟨"", "", 0, 0, 0⟩⟩ ∧
    readPermitMetadata
      (⟨Except.ok "T", Except.ok "1", Except.error ⟨⟨"", "", 0, ""⟩, [], "", ⟨"", "", 0, 0, 0⟩⟩,
        fun _ => Except.ok 5⟩ : TokenChain TypedDataPayload) "o" =
      .error ⟨⟨"", "", 0, ""⟩, [], "", ⟨"", "", 0, 0, 0⟩⟩ ∧
    readPermitMetadata
      (⟨Except.ok "T", Except.ok "1", Except.ok 6,
        fun _ => Except.error ⟨⟨"", "", 0, ""⟩, [], "", ⟨"", "", 0, 0, 0⟩⟩⟩ :
        TokenChain TypedDataPayload) "o" =
      .error ⟨⟨"", "", 0, ""⟩, [], "", ⟨"", "", 0, 0, 0⟩⟩ ∧
    buildPermitSignature
      (⟨Except.ok "T", Except.error ⟨⟨"", "", 0, ""⟩, [], "", ⟨"", "", 0, 0, 0⟩⟩,
        Except.ok 6, fun _ => Except.ok 5⟩ : TokenChain TypedDataPayload)
      (fun _ _ => (0 : Int)) (fun _ => Except.error ⟨⟨"", "", 0, ""⟩, [], "", ⟨"", "", 0, 0, 0⟩⟩)
      ⟨"o", "t", "s", "1", 99, 8453⟩ =
      .error ⟨⟨"", "", 0, ""⟩, [], "", ⟨"", "", 0, 0, 0⟩⟩ ∧
    (∃ P, buildPermitSignature
      (⟨Except.ok "T", Except.error ⟨⟨"", "", 0, ""⟩, [], "", ⟨"", "", 0, 0, 0⟩⟩,
        Except.ok 6, fun _ => Except.ok 5⟩ : TokenChain TypedDataPayload)
      (fun _ _ => (0 : Int)) (fun q => Except.error q)
      ⟨"o", "t", "s", "1", 99, 8453⟩ = .error P ∧ P.domain.version = "1") ∧
    (buildPermitSignature
      (⟨Except.ok "T", Except.error ⟨⟨"", "", 0, ""⟩, [], "", ⟨"", "", 0, 0, 0⟩⟩,
        Except.ok 6, fun _ => Except.ok 5⟩ : TokenChain TypedDataPayload)
      (fun _ _ => (0 : Int)) (fun _ => Except.ok ['a'])
      ⟨"o", "t", "s", "1", 99, 8453⟩).isOk = true := by
  refine ⟨?_, ?_, ?_, ?_, ?_, ?_, ?_, ?_⟩
  · exact (readTokenVersion_fallback _ "o" (fun _ _ => (0 : Int))
      ⟨"o", "t", "s", "1", 99, 8453⟩).1 _ rfl
  · exact (readTokenVersion_fallback _ "o" (fun _ _ => (0 : Int))
      ⟨"o", "t", "s", "1", 99, 8453⟩).2.1 _ "T" 6 5 rfl rfl rfl rfl
  · exact (readTokenVersion_fallback _ "o" (fun _ _ => (0 : Int))
      ⟨"o", "t", "s", "1", 99, 8453⟩).2.2.1 _ rfl
  · exact (readTokenVersion_fallback _ "o" (fun _ _ => (0 : Int))
      ⟨"o", "t", "s", "1", 99, 8453⟩).2.2.2.1 "T" _ rfl rfl
  · exact (readTokenVersion_fallback _ "o" (fun _ _ => (0 : Int))
      ⟨"o", "t", "s", "1", 99, 8453⟩).2.2.2.2.1 "T" 6 _ rfl rfl rfl
  · exact (readTokenVersion_fallback _ "o" (fun _ _ => (0 : Int))
      ⟨"o", "t", "s", "1", 99, 8453⟩).2.2.2.2.2.1 ⟨"T", "1", 6, 5⟩ _ rfl
  · exact (readTokenVersion_fallback _ "o" (fun _ _ => (0 : Int))
      ⟨"o", "t", "s", "1", 99, 8453⟩).2.2.2.2.2.2.1 _ "T" 6 5 rfl rfl rfl rfl
  · exact (readTokenVersion_fallback _ "o" (fun _ _ => (0 : Int))
      ⟨"o", "t", "s", "1", 99, 8453⟩).2.2.2.2.2.2.2 ⟨"T", "1", 6, 5⟩ ['a'] rfl
